import Mathlib

-- Verification of the imagegrid photomosaic program (src/main.rs).
-- Shallow embedding: pixel channels are 8-bit values modeled as Nat,
-- i32 arithmetic is Int with explicit two's-complement wrapping where
-- the source's accumulator can overflow, usize bitwise NOT is modeled
-- exactly on lengths below 2^64.

namespace ImageGrid

/-- An 8-bit RGB color sample `[u8; 3]`, modeled as a triple of Nat
(channel values are below 256 for real pixels; theorems that need the
bound carry it as a hypothesis). -/
abbrev RgbU8 := Nat × Nat × Nat

/-- `struct ThumbnailData { path: String, res: u32, colors: Vec<[u8; 3]> }`. -/
structure ThumbnailData where
  path : String
  res : Nat
  colors : List RgbU8
  deriving DecidableEq

/-- Bitwise NOT on a `usize` value: `!n`.  Real vector lengths are below
2^64, where this is `2^64 - 1 - n`. -/
def usizeNot (n : Nat) : Nat := 2 ^ 64 - 1 - n

/-- `i32::MAX`. -/
def i32max : Int := 2147483647

/-- Two's-complement wrapping of an integer into the i32 range, the
release-mode semantics of i32 addition overflow. -/
def wrap32 (z : Int) : Int := (z + 2 ^ 31) % 2 ^ 32 - 2 ^ 31

/-- One loop iteration's contribution in `compare_thumbs_u8`:
`(x[0] as i32 - y[0] as i32).pow(2) + (x[1] - y[1]).pow(2) + (x[2] - y[2]).pow(2)`.
For 8-bit channels every intermediate fits easily in i32, so this term
is exact. -/
def sampleDiff (x y : RgbU8) : Int :=
  ((x.1 : Int) - (y.1 : Int)) ^ 2 + ((x.2.1 : Int) - (y.2.1 : Int)) ^ 2
    + ((x.2.2 : Int) - (y.2.2 : Int)) ^ 2

/-- The accumulation loop `for (x, y) in zip(a, b) { diff += ... }`, with
each `+=` wrapping as i32 addition does on overflow. -/
def diffLoop (d : Int) : List (RgbU8 × RgbU8) → Int
  | [] => d
  | p :: t => diffLoop (wrap32 (d + sampleDiff p.1 p.2)) t

/-- `fn compare_thumbs_u8(a: &Vec<[u8; 3]>, b: &Vec<[u8; 3]>) -> i32`.
The source's guard is literally `if !a.len() == b.len()`: `!` on `usize`
is bitwise NOT, so the sentinel branch fires only when
`b.len() == !a.len()`, not on mismatched lengths. -/
def compare_thumbs_u8 (a b : List RgbU8) : Int :=
  if usizeNot a.length = b.length then i32max
  else diffLoop 0 (a.zip b)

/-- Mathematical (unwrapped) sum of the per-sample squared differences. -/
def sumTerms (l : List (RgbU8 × RgbU8)) : Int :=
  (l.map fun p => sampleDiff p.1 p.2).sum

-- Center cropping (main, lines 169-180).

/-- The cropped extent along one axis: `width - width % args.thumbsize`. -/
def crop_width (w thumbsize : Nat) : Nat := w - w % thumbsize

/-- The crop offset along one axis: `(width - crop_width) / 2`. -/
def crop_offset (w thumbsize : Nat) : Nat := (w - crop_width w thumbsize) / 2

-- The pre-matching pipeline of main (lines 123-193): the thumbnail-count
-- check, the target-image read, then crop and chunk-grid computation.
-- There is no further check between these and the task spawn loop.

/-- Outcome of main's pre-matching phase: either one of the two explicit
early exits, or control proceeds to the scheduler with the computed chunk
grid and output canvas dimensions. -/
inductive PreMatchOutcome where
  | exitNotEnoughThumbs
  | exitImageUnreadable
  | proceed (xChunks yChunks canvasW canvasH : Nat)
  deriving DecidableEq

/-- Main's pre-matching control flow, in source order: `if
thumbs_db.thumbs.len() < 2 { exit(1) }`, then `if let Err(e) = raw_image {
exit(2) }`, then the center crop, the canvas allocation
`RgbImage::new(crop_width * dpr, crop_height * dpr)` and the chunk counts
`crop_width / thumbsize`, `crop_height / thumbsize`. -/
def preMatch (dbLen : Nat) (imageReadable : Bool) (w h thumbsize dpr : Nat) :
    PreMatchOutcome :=
  if dbLen < 2 then .exitNotEnoughThumbs
  else if imageReadable = false then .exitImageUnreadable
  else
    .proceed (crop_width w thumbsize / thumbsize)
      (crop_width h thumbsize / thumbsize)
      (crop_width w thumbsize * dpr) (crop_width h thumbsize * dpr)

/-- The process exit status attached to each outcome: `exit(1i32)`,
`exit(2i32)`, and 0 for a run that proceeds and completes normally. -/
def exitCode : PreMatchOutcome → Int
  | .exitNotEnoughThumbs => 1
  | .exitImageUnreadable => 2
  | .proceed _ _ _ _ => 0

-- The import loop of main (lines 90-121).

/-- Main's thumbnail import loop: for each globbed candidate path, if no
record with identity key (path, sampleres) is in the database, import it
(push a new record, signature extracted by the external decode+resize
collaborator `sig`) and increment `dirty_thumbs_db`.  State is
(thumbs_db.thumbs, dirty_thumbs_db). -/
def importLoop (sig : String → Nat → List RgbU8) (res : Nat) :
    List String → List ThumbnailData × Nat → List ThumbnailData × Nat
  | [], st => st
  | p :: rest, (db, dirty) =>
    if (db.find? fun a => a.path == p && a.res == res).isNone then
      importLoop sig res rest (db ++ [⟨p, res, sig p res⟩], dirty + 1)
    else
      importLoop sig res rest (db, dirty)

/-- The import phase starting from a freshly loaded database with a zero
dirty counter (`let mut dirty_thumbs_db = 0u32`). -/
def runImport (sig : String → Nat → List RgbU8) (res : Nat)
    (paths : List String) (db : List ThumbnailData) :
    List ThumbnailData × Nat :=
  importLoop sig res paths (db, 0)

/-- The write-back decision `if dirty_thumbs_db > 0 { fs::write(...) }`. -/
def persistsDb (st : List ThumbnailData × Nat) : Bool := decide (st.2 > 0)

-- The scheduler's spawn loops and the output canvas (main, lines 185-219).

/-- The double spawn loop `for x_chunk in 0..x_chunks { for y_chunk in
0..y_chunks { tasks.spawn(...) } }`: the list of grid cells, one spawned
match task per cell. -/
def spawnGrid (xChunks yChunks : Nat) : List (Nat × Nat) :=
  (List.range xChunks).flatMap fun x =>
    (List.range yChunks).map fun y => (x, y)

/-- `RgbImage::new(crop_width * args.dpr, crop_height * args.dpr)`. -/
def canvasSize (cropW cropH dpr : Nat) : Nat × Nat :=
  (cropW * dpr, cropH * dpr)

-- The compositor (main, lines 221-243).

/-- One drained MatchResult as the compositor consumes it: the chunk's
grid coordinates and the winning thumbnail's resized pixel buffer (a
function of tile-local coordinates; its content depends only on the
winner's path, never on the drain order). -/
structure MatchOverlay where
  gx : Nat
  gy : Nat
  tile : Nat → Nat → RgbU8

/-- `image::imageops::overlay(&mut target_image, &best_image, x, y)` with
`x = x_chunk * thumbsize * dpr`, `y = y_chunk * thumbsize * dpr` and a
`side × side` tile (`side = thumbsize * dpr`): destination pixels inside
the tile's rectangle are fully replaced (RgbImage has no alpha). -/
def overlayAt (side : Nat) (canvas : Nat → Nat → RgbU8) (m : MatchOverlay) :
    Nat → Nat → RgbU8 := fun px py =>
  if m.gx * side ≤ px ∧ px < m.gx * side + side ∧
      m.gy * side ≤ py ∧ py < m.gy * side + side then
    m.tile (px - m.gx * side) (py - m.gy * side)
  else canvas px py

/-- The compositor's drain loop: overlay each completed MatchResult onto
the canvas, in arrival order. -/
def composite (side : Nat) (canvas : Nat → Nat → RgbU8)
    (results : List MatchOverlay) : Nat → Nat → RgbU8 :=
  results.foldl (overlayAt side) canvas

-- The chunk matcher process_chunk (lines 344-388), Rgb branch: a linear
-- scan starting from best_score = i32::MAX and best_match = None,
-- replacing on strict improvement.

/-- One iteration of the scan `if score < best_score { best_score = score;
best_match = Some(ref_thumb) }`. -/
def rgbStep (pixels : List RgbU8) (acc : Option ThumbnailData × Int)
    (r : ThumbnailData) : Option ThumbnailData × Int :=
  if compare_thumbs_u8 pixels r.colors < acc.2 then
    (some r, compare_thumbs_u8 pixels r.colors)
  else acc

/-- The scan over the database records from a given accumulator. -/
def rgbScanFrom (pixels : List RgbU8) (acc : Option ThumbnailData × Int)
    (db : List ThumbnailData) : Option ThumbnailData × Int :=
  db.foldl (rgbStep pixels) acc

/-- `process_chunk` under the Rgb difference function: the returned
`best_match` of the scan started at `(None, i32::MAX)`.  (The chunk's
resize to sampleres × sampleres is the external collaborator producing
`pixels`.) -/
def process_chunk_rgb (pixels : List RgbU8) (db : List ThumbnailData) :
    Option ThumbnailData :=
  (rgbScanFrom pixels (none, i32max) db).1

/-- The minimum of the active metric's score over all records, seeded with
the scan's initial best score. -/
def minScore (pixels : List RgbU8) (db : List ThumbnailData) : Int :=
  (db.map fun r => compare_thumbs_u8 pixels r.colors).foldl min i32max

-- Concrete fixtures for counterexamples: a 105 × 105 sample resolution
-- (signature length 11025) makes the quantized score reach or pass
-- i32::MAX.

/-- A 11025-sample chunk signature whose distance to an all-black record
is exactly i32::MAX, term by term: 11008 white samples contribute
195075 each, then (200,200,101) and (86,21,3) contribute 90201 and 7846,
then 15 black samples contribute 0. -/
def cexPixels : List RgbU8 :=
  List.replicate 11008 (255, 255, 255) ++
    ([(200, 200, 101), (86, 21, 3)] ++ List.replicate 15 (0, 0, 0))

/-- An all-black signature at sample resolution 105. -/
def cexColors : List RgbU8 := List.replicate 11025 (0, 0, 0)

/-- A database record holding the all-black resolution-105 signature. -/
def cexRecord : ThumbnailData := ⟨"black.jpg", 105, cexColors⟩

/-- An all-white signature at sample resolution 105. -/
def ovfWhite : List RgbU8 := List.replicate 11025 (255, 255, 255)

-- Basic facts about wrapping and the accumulation loop.

theorem wrap32_add_left (a b : Int) : wrap32 (wrap32 a + b) = wrap32 (a + b) := by
  unfold wrap32
  omega

theorem wrap32_zero : wrap32 0 = 0 := by
  unfold wrap32
  omega

theorem wrap32_of_range (z : Int) (h0 : -(2 ^ 31) ≤ z) (h1 : z < 2 ^ 31) :
    wrap32 z = z := by
  unfold wrap32
  omega

theorem diffLoop_eq_wrap (l : List (RgbU8 × RgbU8)) :
    ∀ d : Int, diffLoop (wrap32 d) l = wrap32 (d + sumTerms l) := by
  induction l with
  | nil => intro d; simp [diffLoop, sumTerms]
  | cons p t ih =>
    intro d
    have h1 : diffLoop (wrap32 d) (p :: t)
        = diffLoop (wrap32 (wrap32 d + sampleDiff p.1 p.2)) t := rfl
    rw [h1, wrap32_add_left, ih (d + sampleDiff p.1 p.2)]
    have h2 : sumTerms (p :: t) = sampleDiff p.1 p.2 + sumTerms t := by
      simp [sumTerms]
    rw [h2]
    ring_nf

theorem compare_thumbs_u8_eq_wrap (a b : List RgbU8)
    (h : usizeNot a.length ≠ b.length) :
    compare_thumbs_u8 a b = wrap32 (sumTerms (a.zip b)) := by
  unfold compare_thumbs_u8
  rw [if_neg h]
  have h0 : diffLoop 0 (a.zip b) = diffLoop (wrap32 0) (a.zip b) := by
    rw [wrap32_zero]
  rw [h0, diffLoop_eq_wrap]
  ring_nf

theorem sampleDiff_self (x : RgbU8) : sampleDiff x x = 0 := by
  unfold sampleDiff
  ring

theorem sampleDiff_comm (x y : RgbU8) : sampleDiff x y = sampleDiff y x := by
  unfold sampleDiff
  ring

theorem sampleDiff_nonneg (x y : RgbU8) : 0 ≤ sampleDiff x y := by
  unfold sampleDiff
  positivity

theorem usizeNot_ne_self (n : Nat) : usizeNot n ≠ n := by
  unfold usizeNot
  omega

theorem sumTerms_cons (p : RgbU8 × RgbU8) (t : List (RgbU8 × RgbU8)) :
    sumTerms (p :: t) = sampleDiff p.1 p.2 + sumTerms t := by
  simp [sumTerms]

theorem sumTerms_zip_self (a : List RgbU8) : sumTerms (a.zip a) = 0 := by
  induction a with
  | nil => rfl
  | cons x t ih =>
    rw [List.zip_cons_cons, sumTerms_cons, sampleDiff_self, ih]
    ring

theorem sumTerms_map_swap (l : List (RgbU8 × RgbU8)) :
    sumTerms (l.map Prod.swap) = sumTerms l := by
  induction l with
  | nil => rfl
  | cons p t ih =>
    rw [List.map_cons, sumTerms_cons, sumTerms_cons, ih]
    simp [sampleDiff_comm p.2 p.1]

theorem sumTerms_zip_comm (a b : List RgbU8) :
    sumTerms (a.zip b) = sumTerms (b.zip a) := by
  rw [← List.zip_swap a b, sumTerms_map_swap]

theorem compare_thumbs_u8_self (a : List RgbU8) : compare_thumbs_u8 a a = 0 := by
  rw [compare_thumbs_u8_eq_wrap a a (usizeNot_ne_self a.length),
    sumTerms_zip_self, wrap32_zero]

-- The guard condition of compare_thumbs_u8 is symmetric for real
-- (sub-2^64) vector lengths, because usize bitwise NOT is an involution.

theorem usizeNot_symm {m n : Nat} (hm : m < 2 ^ 64) (hn : n < 2 ^ 64) :
    usizeNot m = n ↔ usizeNot n = m := by
  unfold usizeNot
  omega

theorem compare_thumbs_u8_comm (a b : List RgbU8)
    (ha : a.length < 2 ^ 64) (hb : b.length < 2 ^ 64) :
    compare_thumbs_u8 a b = compare_thumbs_u8 b a := by
  by_cases hg : usizeNot a.length = b.length
  · have hg2 : usizeNot b.length = a.length := (usizeNot_symm ha hb).mp hg
    unfold compare_thumbs_u8
    rw [if_pos hg, if_pos hg2]
  · have hg2 : usizeNot b.length ≠ a.length := fun h =>
      hg ((usizeNot_symm hb ha).mp h)
    rw [compare_thumbs_u8_eq_wrap a b hg, compare_thumbs_u8_eq_wrap b a hg2,
      sumTerms_zip_comm]

/-- C8: for every signature, the quantized distance of the signature against
itself is 0, and for every pair of signatures (of real, sub-2^64 vector
length) the quantized distance is symmetric in its two arguments. -/
theorem c8_quantized_self_zero_and_symmetric (a b : List RgbU8)
    (ha : a.length < 2 ^ 64) (hb : b.length < 2 ^ 64) :
    compare_thumbs_u8 a a = 0 ∧ compare_thumbs_u8 a b = compare_thumbs_u8 b a :=
  ⟨compare_thumbs_u8_self a, compare_thumbs_u8_comm a b ha hb⟩

/-- Witness for C8 at concrete signatures. -/
theorem c8_quantized_self_zero_and_symmetric_witness :
    ([((1 : Nat), (2 : Nat), (3 : Nat))] : List RgbU8).length < 2 ^ 64 ∧
    ([((4 : Nat), (5 : Nat), (6 : Nat)), ((7 : Nat), (8 : Nat), (9 : Nat))] :
      List RgbU8).length < 2 ^ 64 ∧
    (compare_thumbs_u8 [(1, 2, 3)] [(1, 2, 3)] = 0 ∧
      compare_thumbs_u8 [(1, 2, 3)] [(4, 5, 6), (7, 8, 9)]
        = compare_thumbs_u8 [(4, 5, 6), (7, 8, 9)] [(1, 2, 3)]) :=
  ⟨by decide, by decide,
    c8_quantized_self_zero_and_symmetric [(1, 2, 3)] [(4, 5, 6), (7, 8, 9)]
      (by decide) (by decide)⟩

/-- C2 (code bug): the source's mismatched-length guard is
`if !a.len() == b.len()` where `!` is bitwise NOT on usize, so for the
mismatched-length pair a = [[0,0,0]], b = [] the quantized metric returns
0 (the sum over the zip's common prefix), not the i32::MAX sentinel the
spec requires. -/
theorem c2_mismatched_length_returns_zero_not_sentinel :
    ([((0 : Nat), (0 : Nat), (0 : Nat))] : List RgbU8).length
        ≠ ([] : List RgbU8).length ∧
    compare_thumbs_u8 [(0, 0, 0)] [] = 0 ∧
    compare_thumbs_u8 [(0, 0, 0)] [] ≠ i32max := by
  refine ⟨by decide, ?_, ?_⟩ <;> decide

theorem crop_width_eq_mul (w S : Nat) : crop_width w S = S * (w / S) := by
  have h := Nat.div_add_mod w S
  unfold crop_width
  omega

theorem crop_width_spec (w S : Nat) :
    crop_width w S % S = 0 ∧ crop_width w S ≤ w ∧
      ∀ m, m % S = 0 → m ≤ w → m ≤ crop_width w S := by
  refine ⟨?_, ?_, ?_⟩
  · rw [crop_width_eq_mul, Nat.mul_mod_right]
  · unfold crop_width; omega
  · intro m hm hmw
    have hmul : m = S * (m / S) := by
      have h := Nat.div_add_mod m S
      omega
    rw [crop_width_eq_mul, hmul]
    exact Nat.mul_le_mul_left S (Nat.div_le_div_right hmw)

/-- C3: the cropped dimensions are the largest multiples of S below the
image dimensions, and the crop offsets are `(W - croppedW)/2` and
`(H - croppedH)/2` with integer division, centering the retained region. -/
theorem c3_crop_largest_multiples_centered (W H S : Nat) (hS : 0 < S)
    (hW : S ≤ W) (hH : S ≤ H) :
    (crop_width W S % S = 0 ∧ crop_width W S ≤ W ∧
      ∀ m, m % S = 0 → m ≤ W → m ≤ crop_width W S) ∧
    (crop_width H S % S = 0 ∧ crop_width H S ≤ H ∧
      ∀ m, m % S = 0 → m ≤ H → m ≤ crop_width H S) ∧
    crop_offset W S = (W - crop_width W S) / 2 ∧
    crop_offset H S = (H - crop_width H S) / 2 :=
  ⟨crop_width_spec W S, crop_width_spec H S, rfl, rfl⟩

/-- Witness for C3 at W = 100, H = 50, S = 32. -/
theorem c3_crop_largest_multiples_centered_witness :
    0 < 32 ∧ 32 ≤ 100 ∧ 32 ≤ 50 ∧
    ((crop_width 100 32 % 32 = 0 ∧ crop_width 100 32 ≤ 100 ∧
        ∀ m, m % 32 = 0 → m ≤ 100 → m ≤ crop_width 100 32) ∧
      (crop_width 50 32 % 32 = 0 ∧ crop_width 50 32 ≤ 50 ∧
        ∀ m, m % 32 = 0 → m ≤ 50 → m ≤ crop_width 50 32) ∧
      crop_offset 100 32 = (100 - crop_width 100 32) / 2 ∧
      crop_offset 50 32 = (50 - crop_width 50 32) / 2) :=
  ⟨by decide, by decide, by decide,
    c3_crop_largest_multiples_centered 100 50 32 (by decide) (by decide)
      (by decide)⟩

/-- C5: fewer than 2 usable thumbnail records exits with status 1 before
the image is even read (so regardless of target-image validity); an
unreadable target image exits with status 2; the two statuses are
distinct and non-zero, and distinct from the normal-completion status 0. -/
theorem c5_exit_statuses_distinct :
    (∀ dbLen (imageReadable : Bool) w h t d, dbLen < 2 →
      preMatch dbLen imageReadable w h t d = .exitNotEnoughThumbs) ∧
    (∀ dbLen w h t d, 2 ≤ dbLen →
      preMatch dbLen false w h t d = .exitImageUnreadable) ∧
    exitCode .exitNotEnoughThumbs = 1 ∧
    exitCode .exitImageUnreadable = 2 ∧
    (1 : Int) ≠ 2 ∧ (1 : Int) ≠ 0 ∧ (2 : Int) ≠ 0 := by
  refine ⟨?_, ?_, rfl, rfl, by decide, by decide, by decide⟩
  · intro dbLen imageReadable w h t d hlt
    unfold preMatch
    rw [if_pos hlt]
  · intro dbLen w h t d h2
    unfold preMatch
    rw [if_neg (by omega), if_pos rfl]

/-- Witness for C5: a 1-record database exits 1 even with a readable
image, and a 2-record database with an unreadable image exits 2. -/
theorem c5_exit_statuses_distinct_witness :
    preMatch 1 true 100 100 32 1 = .exitNotEnoughThumbs ∧
    preMatch 2 false 100 100 32 1 = .exitImageUnreadable :=
  ⟨c5_exit_statuses_distinct.1 1 true 100 100 32 1 (by decide),
    c5_exit_statuses_distinct.2.1 2 100 100 32 1 (by decide)⟩

/-- C4 counterexample: with a 2-record database, a readable 100 × 100
image and thumbsize 128, the cropped width and height are 0, yet the
pre-matching phase does not abort: it proceeds to the scheduler with a
0 × 0 chunk grid and a 0 × 0 canvas.  No zero-crop configuration check
exists in the source. -/
theorem c4_counterexample_zero_crop_does_not_abort :
    crop_width 100 128 = 0 ∧
    preMatch 2 true 100 100 128 1 = .proceed 0 0 0 0 := by
  constructor <;> decide

/-- C4 (amended): when thumbsize exceeds the image width, a run that
passes the thumbnail-count and image-read checks is not aborted; it
proceeds with zero chunks along the x axis (hence zero match tasks) and
a zero-width canvas, failing at the earliest when the final image is
saved. -/
theorem c4_zero_crop_proceeds (dbLen w h t d : Nat)
    (hdb : 2 ≤ dbLen) (hw : w < t) :
    crop_width w t = 0 ∧
    preMatch dbLen true w h t d
      = .proceed 0 (crop_width h t / t) 0 (crop_width h t * d) := by
  have hc : crop_width w t = 0 := by
    unfold crop_width
    rw [Nat.mod_eq_of_lt hw]
    omega
  refine ⟨hc, ?_⟩
  unfold preMatch
  rw [if_neg (by omega), if_neg (by simp), hc]
  simp

/-- Witness for C4's amended statement at dbLen = 2, a 100 × 100 image,
thumbsize 128. -/
theorem c4_zero_crop_proceeds_witness :
    2 ≤ 2 ∧ 100 < 128 ∧
    (crop_width 100 128 = 0 ∧
      preMatch 2 true 100 100 128 1
        = .proceed 0 (crop_width 100 128 / 128) 0 (crop_width 100 128 * 1)) :=
  ⟨by decide, by decide, c4_zero_crop_proceeds 2 100 100 128 1 (by decide)
    (by decide)⟩

-- The import loop appends one record per dirty-counter increment, so the
-- final database length and the dirty counter move in lockstep.

theorem importLoop_len (sig : String → Nat → List RgbU8) (res : Nat) :
    ∀ (paths : List String) (db : List ThumbnailData) (d : Nat),
      (importLoop sig res paths (db, d)).1.length + d
        = (importLoop sig res paths (db, d)).2 + db.length := by
  intro paths
  induction paths with
  | nil => intro db d; simp [importLoop]; omega
  | cons p rest ih =>
    intro db d
    simp only [importLoop]
    by_cases hc : (db.find? fun a => a.path == p && a.res == res).isNone = true
    · rw [if_pos hc]
      have h := ih (db ++ [⟨p, res, sig p res⟩]) (d + 1)
      simp only [List.length_append, List.length_cons, List.length_nil] at h
      omega
    · rw [if_neg hc]
      exact ih db d

theorem importLoop_no_new (sig : String → Nat → List RgbU8) (res : Nat) :
    ∀ (paths : List String) (db : List ThumbnailData) (d : Nat),
      (∀ p ∈ paths, ∃ r ∈ db, r.path = p ∧ r.res = res) →
      importLoop sig res paths (db, d) = (db, d) := by
  intro paths
  induction paths with
  | nil => intro db d _; rfl
  | cons p rest ih =>
    intro db d h
    obtain ⟨r, hr, hpath, hres⟩ := h p (List.mem_cons_self p rest)
    have hfind : (db.find? fun a => a.path == p && a.res == res).isSome := by
      rw [List.find?_isSome]
      exact ⟨r, hr, by simp [hpath, hres]⟩
    obtain ⟨v, hv⟩ := Option.isSome_iff_exists.mp hfind
    simp only [importLoop]
    rw [if_neg (by simp [hv])]
    exact ih db d fun q hq => h q (List.mem_cons_of_mem _ hq)

/-- C6: the database is written back iff at least one record was appended
(the dirty counter moves in lockstep with the record list), and importing
against a database already containing every candidate's (path, res) key
appends nothing and skips the write. -/
theorem c6_persist_iff_appended (sig : String → Nat → List RgbU8)
    (res : Nat) (paths : List String) (db : List ThumbnailData) :
    (persistsDb (runImport sig res paths db) = true ↔
      db.length < (runImport sig res paths db).1.length) ∧
    ((∀ p ∈ paths, ∃ r ∈ db, r.path = p ∧ r.res = res) →
      runImport sig res paths db = (db, 0) ∧
        persistsDb (runImport sig res paths db) = false) := by
  constructor
  · have hlen := importLoop_len sig res paths db 0
    unfold persistsDb runImport at *
    simp only [decide_eq_true_eq]
    omega
  · intro h
    have hno := importLoop_no_new sig res paths db 0 h
    unfold runImport
    rw [hno]
    exact ⟨rfl, by simp [persistsDb]⟩

/-- Witness for C6: a database already holding ("a.jpg", 4) against the
single candidate "a.jpg" appends nothing and is not persisted. -/
theorem c6_persist_iff_appended_witness :
    (∀ p ∈ (["a.jpg"] : List String),
      ∃ r ∈ ([⟨"a.jpg", 4, []⟩] : List ThumbnailData),
        r.path = p ∧ r.res = 4) ∧
    (persistsDb (runImport (fun _ _ => []) 4 ["a.jpg"] [⟨"a.jpg", 4, []⟩])
        = true ↔
      ([⟨"a.jpg", 4, []⟩] : List ThumbnailData).length
        < (runImport (fun _ _ => []) 4 ["a.jpg"] [⟨"a.jpg", 4, []⟩]).1.length) ∧
    (runImport (fun _ _ => []) 4 ["a.jpg"] [⟨"a.jpg", 4, []⟩]
        = ([⟨"a.jpg", 4, []⟩], 0) ∧
      persistsDb (runImport (fun _ _ => []) 4 ["a.jpg"] [⟨"a.jpg", 4, []⟩])
        = false) := by
  have hh : ∀ p ∈ (["a.jpg"] : List String),
      ∃ r ∈ ([⟨"a.jpg", 4, []⟩] : List ThumbnailData),
        r.path = p ∧ r.res = 4 := by decide
  have ht := c6_persist_iff_appended (fun _ _ => []) 4 ["a.jpg"]
    [⟨"a.jpg", 4, []⟩]
  exact ⟨hh, ht.1, ht.2 hh⟩

-- The spawn grid enumerates each cell exactly once.

theorem spawnGrid_length (xc yc : Nat) : (spawnGrid xc yc).length = xc * yc := by
  induction xc with
  | zero => simp [spawnGrid]
  | succ n ih =>
    unfold spawnGrid at *
    rw [List.range_succ, List.flatMap_append, List.length_append, ih]
    simp [Nat.succ_mul]

theorem spawnGrid_mem (xc yc a b : Nat) :
    (a, b) ∈ spawnGrid xc yc ↔ a < xc ∧ b < yc := by
  simp [spawnGrid, List.mem_flatMap, List.mem_map, List.mem_range,
    Prod.mk.injEq]

theorem spawnGrid_nodup (xc yc : Nat) : (spawnGrid xc yc).Nodup := by
  unfold spawnGrid
  rw [List.nodup_flatMap]
  constructor
  · intro x _
    exact (List.nodup_range yc).map fun a b h =>
      ((Prod.mk.injEq x a x b).mp h).2
  · apply List.Pairwise.imp ?_ (List.pairwise_lt_range xc)
    intro a b hab p hpa hpb
    simp only [List.mem_map, List.mem_range] at hpa hpb
    obtain ⟨y, _, hy⟩ := hpa
    obtain ⟨y2, _, hy2⟩ := hpb
    rw [← hy] at hy2
    have hba : b = a := ((Prod.mk.injEq _ _ _ _).mp hy2).1
    omega

theorem count_one_of_nodup_mem {α : Type} [BEq α] [LawfulBEq α] :
    ∀ (l : List α) (a : α), l.Nodup → a ∈ l → l.count a = 1 := by
  intro l
  induction l with
  | nil => intro a _ ha; simp at ha
  | cons x t ih =>
    intro a hn ha
    rw [List.count_cons]
    rcases List.mem_cons.mp ha with h | h
    · subst h
      have hx : a ∉ t := (List.nodup_cons.mp hn).1
      simp [List.count_eq_zero.mpr hx]
    · have hne : x ≠ a := by
        rintro rfl
        exact (List.nodup_cons.mp hn).1 h
      rw [ih a (List.nodup_cons.mp hn).2 h]
      simp [hne]

theorem spawnGrid_count (xc yc a b : Nat) (ha : a < xc) (hb : b < yc) :
    (spawnGrid xc yc).count (a, b) = 1 :=
  count_one_of_nodup_mem _ _ (spawnGrid_nodup xc yc)
    ((spawnGrid_mem xc yc a b).mpr ⟨ha, hb⟩)

/-- C10: the scheduler spawns exactly (cropW / thumbsize) × (cropH /
thumbsize) match tasks, each grid cell appears exactly once in the spawn
list (so it yields exactly one MatchResult), the output canvas measures
cropW * dpr × cropH * dpr, and the 100 × 100 / thumbsize-32 instance
gives a 96 crop, a 3 × 3 = 9-task grid, and a 96dpr × 96dpr canvas. -/
theorem c10_grid_tasks_and_canvas (cw ch T dpr : Nat) :
    (spawnGrid (cw / T) (ch / T)).length = (cw / T) * (ch / T) ∧
    (∀ x y, x < cw / T → y < ch / T →
      (spawnGrid (cw / T) (ch / T)).count (x, y) = 1) ∧
    canvasSize cw ch dpr = (cw * dpr, ch * dpr) ∧
    (crop_width 100 32 = 96 ∧ (spawnGrid (96 / 32) (96 / 32)).length = 9 ∧
      canvasSize 96 96 dpr = (96 * dpr, 96 * dpr)) :=
  ⟨spawnGrid_length _ _,
    fun x y hx hy => spawnGrid_count _ _ x y hx hy,
    rfl,
    by decide, by decide, rfl⟩

/-- Witness for C10 at cropped size 96 × 96, thumbsize 32, dpr 2. -/
theorem c10_grid_tasks_and_canvas_witness :
    (spawnGrid (96 / 32) (96 / 32)).length = (96 / 32) * (96 / 32) ∧
    (∀ x y, x < 96 / 32 → y < 96 / 32 →
      (spawnGrid (96 / 32) (96 / 32)).count (x, y) = 1) ∧
    canvasSize 96 96 2 = (96 * 2, 96 * 2) ∧
    (crop_width 100 32 = 96 ∧ (spawnGrid (96 / 32) (96 / 32)).length = 9 ∧
      canvasSize 96 96 2 = (96 * 2, 96 * 2)) :=
  c10_grid_tasks_and_canvas 96 96 32 2

-- Overlays at distinct grid cells write disjoint pixel rectangles, so
-- they commute.

theorem interval_disjoint (g g2 side px : Nat) (hne : g ≠ g2)
    (h1 : g * side ≤ px) (h2 : px < g * side + side)
    (h3 : g2 * side ≤ px) (h4 : px < g2 * side + side) : False := by
  rcases Nat.lt_or_ge g g2 with h | h
  · have hmul : (g + 1) * side ≤ g2 * side :=
      Nat.mul_le_mul_right side (Nat.succ_le_of_lt h)
    have hs : (g + 1) * side = g * side + side := by ring
    omega
  · have hlt : g2 < g := Nat.lt_of_le_of_ne h (Ne.symm hne)
    have hmul : (g2 + 1) * side ≤ g * side :=
      Nat.mul_le_mul_right side (Nat.succ_le_of_lt hlt)
    have hs : (g2 + 1) * side = g2 * side + side := by ring
    omega

theorem overlayAt_comm (side : Nat) (c : Nat → Nat → RgbU8)
    (m m2 : MatchOverlay) (h : (m.gx, m.gy) ≠ (m2.gx, m2.gy)) :
    overlayAt side (overlayAt side c m) m2
      = overlayAt side (overlayAt side c m2) m := by
  have hne : m.gx ≠ m2.gx ∨ m.gy ≠ m2.gy := by
    by_contra hcon
    push_neg at hcon
    exact h (by rw [hcon.1, hcon.2])
  funext px py
  unfold overlayAt
  by_cases h1 : m.gx * side ≤ px ∧ px < m.gx * side + side ∧
      m.gy * side ≤ py ∧ py < m.gy * side + side
  · by_cases h2 : m2.gx * side ≤ px ∧ px < m2.gx * side + side ∧
        m2.gy * side ≤ py ∧ py < m2.gy * side + side
    · exfalso
      rcases hne with hx | hy
      · exact interval_disjoint _ _ side px hx h1.1 h1.2.1 h2.1 h2.2.1
      · exact interval_disjoint _ _ side py hy h1.2.2.1 h1.2.2.2 h2.2.2.1
          h2.2.2.2
    · rw [if_neg h2, if_pos h1, if_pos h1]
  · by_cases h2 : m2.gx * side ≤ px ∧ px < m2.gx * side + side ∧
        m2.gy * side ≤ py ∧ py < m2.gy * side + side
    · rw [if_pos h2, if_neg h1, if_pos h2]
    · rw [if_neg h2, if_neg h1, if_neg h1, if_neg h2]

/-- C9: the final canvas is independent of MatchResult arrival order:
composing the same multiset of per-chunk overlays (distinct grid cells
write disjoint rectangles) in any permutation yields the same canvas. -/
theorem c9_composite_order_independent (side : Nat)
    (canvas : Nat → Nat → RgbU8) (l₁ l₂ : List MatchOverlay)
    (hperm : l₁.Perm l₂)
    (hcells : ∀ m ∈ l₁, ∀ m2 ∈ l₁, m = m2 ∨ (m.gx, m.gy) ≠ (m2.gx, m2.gy)) :
    composite side canvas l₁ = composite side canvas l₂ := by
  unfold composite
  refine hperm.foldl_eq' ?_ canvas
  intro x hx y hy z
  rcases hcells x hx y hy with h | h
  · rw [h]
  · exact overlayAt_comm side z x y h

/-- Witness for C9: two chunks at cells (0,0) and (1,0) drained in either
order produce the same canvas. -/
theorem c9_composite_order_independent_witness :
    (([⟨0, 0, fun _ _ => (1, 1, 1)⟩, ⟨1, 0, fun _ _ => (2, 2, 2)⟩] :
        List MatchOverlay).Perm
      [⟨1, 0, fun _ _ => (2, 2, 2)⟩, ⟨0, 0, fun _ _ => (1, 1, 1)⟩]) ∧
    composite 32 (fun _ _ => (0, 0, 0))
        [⟨0, 0, fun _ _ => (1, 1, 1)⟩, ⟨1, 0, fun _ _ => (2, 2, 2)⟩]
      = composite 32 (fun _ _ => (0, 0, 0))
        [⟨1, 0, fun _ _ => (2, 2, 2)⟩, ⟨0, 0, fun _ _ => (1, 1, 1)⟩] := by
  have hperm : ([⟨0, 0, fun _ _ => (1, 1, 1)⟩, ⟨1, 0, fun _ _ => (2, 2, 2)⟩] :
      List MatchOverlay).Perm
        [⟨1, 0, fun _ _ => (2, 2, 2)⟩, ⟨0, 0, fun _ _ => (1, 1, 1)⟩] :=
    List.Perm.swap _ _ _
  have hcells : ∀ m ∈ ([⟨0, 0, fun _ _ => (1, 1, 1)⟩,
        ⟨1, 0, fun _ _ => (2, 2, 2)⟩] : List MatchOverlay),
      ∀ m2 ∈ ([⟨0, 0, fun _ _ => (1, 1, 1)⟩,
        ⟨1, 0, fun _ _ => (2, 2, 2)⟩] : List MatchOverlay),
      m = m2 ∨ (m.gx, m.gy) ≠ (m2.gx, m2.gy) := by
    intro m hm m2 hm2
    rcases List.mem_cons.mp hm with rfl | hm'
    · rcases List.mem_cons.mp hm2 with rfl | hm2'
      · exact Or.inl rfl
      · rcases List.mem_cons.mp hm2' with rfl | hx
        · exact Or.inr (by decide)
        · exact absurd hx (List.not_mem_nil _)
    · rcases List.mem_cons.mp hm' with rfl | hx
      · rcases List.mem_cons.mp hm2 with rfl | hm2'
        · exact Or.inr (by decide)
        · rcases List.mem_cons.mp hm2' with rfl | hx2
          · exact Or.inl rfl
          · exact absurd hx2 (List.not_mem_nil _)
      · exact absurd hx (List.not_mem_nil _)
  exact ⟨hperm, c9_composite_order_independent 32 (fun _ _ => (0, 0, 0)) _ _
    hperm hcells⟩

-- Generic facts about a running minimum (the scan's best_score).

theorem foldl_min_le_init : ∀ (l : List Int) (s : Int), l.foldl min s ≤ s := by
  intro l
  induction l with
  | nil => intro s; exact le_refl s
  | cons x t ih =>
    intro s
    rw [List.foldl_cons]
    exact le_trans (ih (min s x)) (min_le_left s x)

theorem foldl_min_le_mem :
    ∀ (l : List Int) (s x : Int), x ∈ l → l.foldl min s ≤ x := by
  intro l
  induction l with
  | nil => intro s x hx; exact absurd hx (List.not_mem_nil x)
  | cons y t ih =>
    intro s x hx
    rw [List.foldl_cons]
    rcases List.mem_cons.mp hx with rfl | hx'
    · exact le_trans (foldl_min_le_init t (min s x)) (min_le_right s x)
    · exact ih (min s y) x hx'

theorem foldl_min_eq_init :
    ∀ (l : List Int) (s : Int), (∀ x ∈ l, s ≤ x) → l.foldl min s = s := by
  intro l
  induction l with
  | nil => intro s _; rfl
  | cons y t ih =>
    intro s h
    rw [List.foldl_cons, min_eq_left (h y (List.mem_cons_self y t))]
    exact ih s fun x hx => h x (List.mem_cons_of_mem y hx)

theorem foldl_min_mem_or :
    ∀ (l : List Int) (s : Int), l.foldl min s = s ∨ l.foldl min s ∈ l := by
  intro l
  induction l with
  | nil => intro s; exact Or.inl rfl
  | cons y t ih =>
    intro s
    rw [List.foldl_cons]
    rcases ih (min s y) with h | h
    · rcases le_total s y with hle | hle
      · rw [h, min_eq_left hle]
        exact Or.inl rfl
      · rw [h, min_eq_right hle]
        exact Or.inr (List.mem_cons_self y t)
    · exact Or.inr (List.mem_cons_of_mem y h)

-- The linear scan of process_chunk computes the running minimum and keeps
-- the first record achieving it.

theorem rgbScanFrom_snd (pixels : List RgbU8) :
    ∀ (db : List ThumbnailData) (acc : Option ThumbnailData × Int),
      (rgbScanFrom pixels acc db).2
        = (db.map fun r => compare_thumbs_u8 pixels r.colors).foldl min acc.2 := by
  intro db
  induction db with
  | nil => intro acc; rfl
  | cons r t ih =>
    intro acc
    rw [show rgbScanFrom pixels acc (r :: t)
        = rgbScanFrom pixels (rgbStep pixels acc r) t from rfl]
    rw [ih, List.map_cons, List.foldl_cons]
    congr 1
    unfold rgbStep
    by_cases hlt : compare_thumbs_u8 pixels r.colors < acc.2
    · rw [if_pos hlt]
      exact (min_eq_right (le_of_lt hlt)).symm
    · rw [if_neg hlt]
      exact (min_eq_left (le_of_not_lt hlt)).symm

theorem rgbScanFrom_no_improve (pixels : List RgbU8) :
    ∀ (db : List ThumbnailData) (acc : Option ThumbnailData × Int),
      (∀ r ∈ db, acc.2 ≤ compare_thumbs_u8 pixels r.colors) →
      rgbScanFrom pixels acc db = acc := by
  intro db
  induction db with
  | nil => intro acc _; rfl
  | cons r t ih =>
    intro acc h
    rw [show rgbScanFrom pixels acc (r :: t)
        = rgbScanFrom pixels (rgbStep pixels acc r) t from rfl]
    have hstep : rgbStep pixels acc r = acc := by
      unfold rgbStep
      rw [if_neg (not_lt.mpr (h r (List.mem_cons_self r t)))]
    rw [hstep]
    exact ih acc fun x hx => h x (List.mem_cons_of_mem r hx)

theorem rgbScanFrom_first_min (pixels : List RgbU8) :
    ∀ (db : List ThumbnailData) (o : Option ThumbnailData) (s : Int),
      (∃ r ∈ db, compare_thumbs_u8 pixels r.colors < s) →
      rgbScanFrom pixels (o, s) db
        = (db.find? (fun r => compare_thumbs_u8 pixels r.colors
              == (db.map fun r => compare_thumbs_u8 pixels r.colors).foldl min s),
            (db.map fun r => compare_thumbs_u8 pixels r.colors).foldl min s) := by
  intro db
  induction db with
  | nil =>
    rintro o s ⟨r, hr, _⟩
    exact absurd hr (List.not_mem_nil r)
  | cons r t ih =>
    intro o s hex
    rw [show rgbScanFrom pixels (o, s) (r :: t)
        = rgbScanFrom pixels (rgbStep pixels (o, s) r) t from rfl]
    rw [List.map_cons, List.foldl_cons]
    by_cases hlt : compare_thumbs_u8 pixels r.colors < s
    · have hmin : min s (compare_thumbs_u8 pixels r.colors)
          = compare_thumbs_u8 pixels r.colors := min_eq_right (le_of_lt hlt)
      have hstep : rgbStep pixels (o, s) r
          = (some r, compare_thumbs_u8 pixels r.colors) := by
        unfold rgbStep
        rw [if_pos hlt]
      rw [hstep, hmin]
      by_cases hex2 : ∃ r2 ∈ t,
          compare_thumbs_u8 pixels r2.colors < compare_thumbs_u8 pixels r.colors
      · rw [ih (some r) (compare_thumbs_u8 pixels r.colors) hex2]
        obtain ⟨r2, hr2, hr2lt⟩ := hex2
        have hMlt : (t.map fun x => compare_thumbs_u8 pixels x.colors).foldl min
            (compare_thumbs_u8 pixels r.colors) < compare_thumbs_u8 pixels r.colors :=
          lt_of_le_of_lt
            (foldl_min_le_mem _ _ _
              (List.mem_map_of_mem _ hr2))
            hr2lt
        have hne2 : ¬ (compare_thumbs_u8 pixels r.colors
            == (t.map fun x => compare_thumbs_u8 pixels x.colors).foldl min
              (compare_thumbs_u8 pixels r.colors)) = true := by
          simp only [beq_iff_eq]
          exact ne_of_gt hMlt
        have hfind : List.find? (fun x => compare_thumbs_u8 pixels x.colors
              == (t.map fun y => compare_thumbs_u8 pixels y.colors).foldl min
                (compare_thumbs_u8 pixels r.colors)) (r :: t)
            = List.find? (fun x => compare_thumbs_u8 pixels x.colors
              == (t.map fun y => compare_thumbs_u8 pixels y.colors).foldl min
                (compare_thumbs_u8 pixels r.colors)) t :=
          List.find?_cons_of_neg t hne2
        rw [hfind]
      · push_neg at hex2
        rw [rgbScanFrom_no_improve pixels t (some r, compare_thumbs_u8 pixels r.colors)
            hex2]
        have hM : (t.map fun x => compare_thumbs_u8 pixels x.colors).foldl min
            (compare_thumbs_u8 pixels r.colors) = compare_thumbs_u8 pixels r.colors := by
          apply foldl_min_eq_init
          intro x hx
          obtain ⟨r2, hr2, rfl⟩ := List.mem_map.mp hx
          exact hex2 r2 hr2
        have hfind : List.find? (fun x => compare_thumbs_u8 pixels x.colors
              == compare_thumbs_u8 pixels r.colors) (r :: t) = some r :=
          List.find?_cons_of_pos t (by simp)
        rw [hM, hfind]
    · have hstep : rgbStep pixels (o, s) r = (o, s) := by
        unfold rgbStep
        rw [if_neg hlt]
      have hmin : min s (compare_thumbs_u8 pixels r.colors) = s :=
        min_eq_left (le_of_not_lt hlt)
      obtain ⟨r0, hr0, hr0lt⟩ := hex
      have hex2 : ∃ r2 ∈ t, compare_thumbs_u8 pixels r2.colors < s := by
        rcases List.mem_cons.mp hr0 with rfl | hr0'
        · exact absurd hr0lt hlt
        · exact ⟨r0, hr0', hr0lt⟩
      rw [hstep, hmin, ih o s hex2]
      obtain ⟨r2, hr2, hr2lt⟩ := hex2
      have hMlt : (t.map fun x => compare_thumbs_u8 pixels x.colors).foldl min s
          < s :=
        lt_of_le_of_lt
          (foldl_min_le_mem _ _ _ (List.mem_map_of_mem _ hr2)) hr2lt
      have hrM : compare_thumbs_u8 pixels r.colors
          ≠ (t.map fun x => compare_thumbs_u8 pixels x.colors).foldl min s := by
        intro heq
        exact hlt (heq ▸ hMlt)
      have hne2 : ¬ (compare_thumbs_u8 pixels r.colors
          == (t.map fun x => compare_thumbs_u8 pixels x.colors).foldl min s)
            = true := by
        simp only [beq_iff_eq]
        exact hrM
      have hfind : List.find? (fun x => compare_thumbs_u8 pixels x.colors
            == (t.map fun y => compare_thumbs_u8 pixels y.colors).foldl min s)
            (r :: t)
          = List.find? (fun x => compare_thumbs_u8 pixels x.colors
            == (t.map fun y => compare_thumbs_u8 pixels y.colors).foldl min s)
            t :=
        List.find?_cons_of_neg t hne2
      rw [hfind]

/-- C1 (amended): whenever some record scores strictly below i32::MAX
(the scan's initial best_score), process_chunk under the quantized metric
returns the first record in database order achieving the minimal score,
which is a member of the database with score equal to the minimum over
all records.  (If every record scores exactly i32::MAX the strict-
improvement test never fires and the scan returns no record.) -/
theorem c1_first_minimum_member (pixels : List RgbU8)
    (db : List ThumbnailData)
    (h : ∃ r ∈ db, compare_thumbs_u8 pixels r.colors < i32max) :
    ∃ w, process_chunk_rgb pixels db = some w ∧ w ∈ db ∧
      compare_thumbs_u8 pixels w.colors = minScore pixels db ∧
      (∀ r ∈ db, minScore pixels db ≤ compare_thumbs_u8 pixels r.colors) ∧
      process_chunk_rgb pixels db
        = db.find? fun r => compare_thumbs_u8 pixels r.colors
            == minScore pixels db := by
  have hscan := rgbScanFrom_first_min pixels db none i32max h
  have hproc : process_chunk_rgb pixels db
      = db.find? fun r => compare_thumbs_u8 pixels r.colors
          == minScore pixels db := by
    unfold process_chunk_rgb minScore
    rw [hscan]
  obtain ⟨r0, hr0, hr0lt⟩ := h
  have hMle : minScore pixels db ≤ compare_thumbs_u8 pixels r0.colors :=
    foldl_min_le_mem _ _ _ (List.mem_map_of_mem _ hr0)
  have hMlt : minScore pixels db < i32max := lt_of_le_of_lt hMle hr0lt
  have hMmem : minScore pixels db
      ∈ db.map fun r => compare_thumbs_u8 pixels r.colors := by
    rcases foldl_min_mem_or
        (db.map fun r => compare_thumbs_u8 pixels r.colors) i32max with h1 | h1
    · exact absurd (h1 ▸ hMlt) (lt_irrefl i32max)
    · exact h1
  obtain ⟨w0, hw0, hw0eq⟩ := List.mem_map.mp hMmem
  have hsome : (db.find? fun r => compare_thumbs_u8 pixels r.colors
      == minScore pixels db).isSome := by
    rw [List.find?_isSome]
    exact ⟨w0, hw0, by simp [hw0eq]⟩
  obtain ⟨w, hw⟩ := Option.isSome_iff_exists.mp hsome
  refine ⟨w, by rw [hproc, hw], List.mem_of_find?_eq_some hw, ?_, ?_, hproc⟩
  · have := List.find?_some hw
    simpa [beq_iff_eq] using this
  · intro r hr
    exact foldl_min_le_mem _ _ _ (List.mem_map_of_mem _ hr)

/-- Witness for C1's amended statement: a two-record database where the
second record scores 0 and the first scores 3 selects the second. -/
theorem c1_first_minimum_member_witness :
    (∃ r ∈ ([⟨"w.jpg", 1, [(1, 1, 1)]⟩, ⟨"b.jpg", 1, [(0, 0, 0)]⟩] :
        List ThumbnailData),
      compare_thumbs_u8 [(0, 0, 0)] r.colors < i32max) ∧
    (∃ w, process_chunk_rgb [(0, 0, 0)]
          [⟨"w.jpg", 1, [(1, 1, 1)]⟩, ⟨"b.jpg", 1, [(0, 0, 0)]⟩] = some w ∧
      w ∈ ([⟨"w.jpg", 1, [(1, 1, 1)]⟩, ⟨"b.jpg", 1, [(0, 0, 0)]⟩] :
        List ThumbnailData) ∧
      compare_thumbs_u8 [(0, 0, 0)] w.colors
        = minScore [(0, 0, 0)]
            [⟨"w.jpg", 1, [(1, 1, 1)]⟩, ⟨"b.jpg", 1, [(0, 0, 0)]⟩] ∧
      (∀ r ∈ ([⟨"w.jpg", 1, [(1, 1, 1)]⟩, ⟨"b.jpg", 1, [(0, 0, 0)]⟩] :
          List ThumbnailData),
        minScore [(0, 0, 0)]
            [⟨"w.jpg", 1, [(1, 1, 1)]⟩, ⟨"b.jpg", 1, [(0, 0, 0)]⟩]
          ≤ compare_thumbs_u8 [(0, 0, 0)] r.colors) ∧
      process_chunk_rgb [(0, 0, 0)]
          [⟨"w.jpg", 1, [(1, 1, 1)]⟩, ⟨"b.jpg", 1, [(0, 0, 0)]⟩]
        = ([⟨"w.jpg", 1, [(1, 1, 1)]⟩, ⟨"b.jpg", 1, [(0, 0, 0)]⟩] :
            List ThumbnailData).find? fun r =>
              compare_thumbs_u8 [(0, 0, 0)] r.colors
                == minScore [(0, 0, 0)]
                  [⟨"w.jpg", 1, [(1, 1, 1)]⟩, ⟨"b.jpg", 1, [(0, 0, 0)]⟩]) := by
  have hh : ∃ r ∈ ([⟨"w.jpg", 1, [(1, 1, 1)]⟩, ⟨"b.jpg", 1, [(0, 0, 0)]⟩] :
      List ThumbnailData),
      compare_thumbs_u8 [(0, 0, 0)] r.colors < i32max := by decide
  exact ⟨hh, c1_first_minimum_member [(0, 0, 0)]
    [⟨"w.jpg", 1, [(1, 1, 1)]⟩, ⟨"b.jpg", 1, [(0, 0, 0)]⟩] hh⟩

-- Computation of the counterexample score: the 105 × 105 chunk signature
-- cexPixels against the all-black record scores exactly i32::MAX with no
-- intermediate overflow, so the strict-improvement test never fires.

theorem sumTerms_append (l l2 : List (RgbU8 × RgbU8)) :
    sumTerms (l ++ l2) = sumTerms l + sumTerms l2 := by
  simp [sumTerms]

theorem sumTerms_zip_replicate (n : Nat) (x y : RgbU8) :
    sumTerms ((List.replicate n x).zip (List.replicate n y))
      = n * sampleDiff x y := by
  induction n with
  | zero => simp [sumTerms]
  | succ k ih =>
    rw [List.replicate_succ x k, List.replicate_succ y k, List.zip_cons_cons,
      sumTerms_cons, ih]
    push_cast
    ring

theorem cex_sum : sumTerms (cexPixels.zip cexColors) = 2147483647 := by
  have hsplit : cexColors = List.replicate 11008 (0, 0, 0)
      ++ (List.replicate 2 (0, 0, 0) ++ List.replicate 15 (0, 0, 0)) := by
    unfold cexColors
    rw [← List.replicate_add, ← List.replicate_add]
  unfold cexPixels
  rw [hsplit]
  have hz1 : (List.replicate 11008 (((255 : Nat), (255 : Nat), (255 : Nat)) :
        RgbU8)).length
      = (List.replicate 11008 (((0 : Nat), (0 : Nat), (0 : Nat)) :
        RgbU8)).length := by
    rw [List.length_replicate, List.length_replicate]
  rw [List.zip_append hz1, sumTerms_append]
  have htwo : List.replicate 2 ((0, 0, 0) : RgbU8) = [(0, 0, 0), (0, 0, 0)] :=
    rfl
  rw [htwo]
  have hz2 : ([((200 : Nat), (200 : Nat), (101 : Nat)), (86, 21, 3)] :
        List RgbU8).length
      = ([((0 : Nat), (0 : Nat), (0 : Nat)), (0, 0, 0)] : List RgbU8).length :=
    rfl
  rw [List.zip_append hz2, sumTerms_append]
  rw [sumTerms_zip_replicate, sumTerms_zip_replicate]
  have h1 : sampleDiff (255, 255, 255) (0, 0, 0) = 195075 := by decide
  have h2 : sampleDiff (0, 0, 0) (0, 0, 0) = 0 := by decide
  have h3 : sumTerms (List.zip [((200 : Nat), (200 : Nat), (101 : Nat)),
      (86, 21, 3)] [((0 : Nat), (0 : Nat), (0 : Nat)), (0, 0, 0)])
        = 98047 := by decide
  rw [h1, h2, h3]
  norm_num

theorem cex_score : compare_thumbs_u8 cexPixels cexColors = i32max := by
  have hlenP : cexPixels.length = 11025 := by
    unfold cexPixels
    rw [List.length_append, List.length_append, List.length_replicate,
      List.length_replicate, List.length_cons, List.length_cons,
      List.length_nil]
  have hlenC : cexColors.length = 11025 := by
    unfold cexColors
    rw [List.length_replicate]
  have hg : usizeNot cexPixels.length ≠ cexColors.length := by
    rw [hlenP, hlenC]
    decide
  rw [compare_thumbs_u8_eq_wrap _ _ hg, cex_sum]
  unfold i32max
  rw [wrap32_of_range _ (by norm_num) (by norm_num)]

/-- C1 counterexample: a non-empty database whose single record scores
exactly i32::MAX against the chunk (achievable without overflow at sample
resolution 105) makes process_chunk return no record at all - the claim's
"returns a member of the database" fails. -/
theorem c1_counterexample_all_max_returns_none :
    ([cexRecord] : List ThumbnailData) ≠ [] ∧
    process_chunk_rgb cexPixels [cexRecord] = none := by
  have hsing : ∀ (pixels : List RgbU8) (r : ThumbnailData),
      compare_thumbs_u8 pixels r.colors = i32max →
      process_chunk_rgb pixels [r] = none := by
    intro pixels r h
    unfold process_chunk_rgb rgbScanFrom
    rw [List.foldl_cons, List.foldl_nil]
    unfold rgbStep
    rw [h]
    rw [if_neg (lt_irrefl i32max)]
  have hcol : cexRecord.colors = cexColors := rfl
  exact ⟨List.cons_ne_nil cexRecord [],
    hsing cexPixels cexRecord (hcol ▸ cex_score)⟩

-- C7: the i32 accumulator is safe for signatures up to 11008 samples
-- (sample resolutions up to 104), but overflows - and goes negative -
-- at sample resolution 105.

theorem sumTerms_nonneg : ∀ l : List (RgbU8 × RgbU8), 0 ≤ sumTerms l := by
  intro l
  induction l with
  | nil => simp [sumTerms]
  | cons p t ih =>
    rw [sumTerms_cons]
    have := sampleDiff_nonneg p.1 p.2
    linarith

theorem sampleDiff_le (x y : RgbU8)
    (hx : x.1 < 256 ∧ x.2.1 < 256 ∧ x.2.2 < 256)
    (hy : y.1 < 256 ∧ y.2.1 < 256 ∧ y.2.2 < 256) :
    sampleDiff x y ≤ 195075 := by
  unfold sampleDiff
  have h1 : ((x.1 : Int) - (y.1 : Int)) ^ 2 ≤ 255 ^ 2 :=
    sq_le_sq' (by omega) (by omega)
  have h2 : ((x.2.1 : Int) - (y.2.1 : Int)) ^ 2 ≤ 255 ^ 2 :=
    sq_le_sq' (by omega) (by omega)
  have h3 : ((x.2.2 : Int) - (y.2.2 : Int)) ^ 2 ≤ 255 ^ 2 :=
    sq_le_sq' (by omega) (by omega)
  have : (255 : Int) ^ 2 = 65025 := by norm_num
  linarith

theorem sumTerms_le_of_bounds :
    ∀ l : List (RgbU8 × RgbU8),
      (∀ p ∈ l, sampleDiff p.1 p.2 ≤ 195075) →
      sumTerms l ≤ 195075 * l.length := by
  intro l
  induction l with
  | nil => intro _; simp [sumTerms]
  | cons p t ih =>
    intro h
    rw [sumTerms_cons]
    have hp := h p (List.mem_cons_self p t)
    have ht := ih fun q hq => h q (List.mem_cons_of_mem p hq)
    have hlen : ((p :: t).length : Int) = (t.length : Int) + 1 := by
      push_cast [List.length_cons]
      ring
    rw [hlen]
    linarith

/-- C7 (amended): the quantized metric's i32 accumulator never overflows
for equal-length 8-bit signatures of at most 11008 samples (covering
every sample resolution up to 104, hence the defaults 3-4), and on such
inputs the result is the exact sum of squared per-channel differences,
which is non-negative.  At 11025 samples (resolution 105) it overflows
(see the counterexample). -/
theorem c7_range_safe_bounded (a b : List RgbU8)
    (hlen : a.length = b.length) (hn : a.length ≤ 11008)
    (ha : ∀ p ∈ a, p.1 < 256 ∧ p.2.1 < 256 ∧ p.2.2 < 256)
    (hb : ∀ p ∈ b, p.1 < 256 ∧ p.2.1 < 256 ∧ p.2.2 < 256) :
    compare_thumbs_u8 a b = sumTerms (a.zip b) ∧
      0 ≤ compare_thumbs_u8 a b := by
  have hg : usizeNot a.length ≠ b.length := by
    rw [← hlen]
    exact usizeNot_ne_self a.length
  have hbound : ∀ p ∈ a.zip b, sampleDiff p.1 p.2 ≤ 195075 := by
    intro p hp
    have hmem := List.of_mem_zip hp
    exact sampleDiff_le p.1 p.2 (ha p.1 hmem.1) (hb p.2 hmem.2)
  have hup := sumTerms_le_of_bounds (a.zip b) hbound
  have hlz : (a.zip b).length = a.length := by
    rw [List.length_zip, hlen, min_self]
  have hcast : ((a.zip b).length : Int) ≤ 11008 := by
    rw [hlz]
    exact_mod_cast hn
  have hrange : sumTerms (a.zip b) < 2 ^ 31 := by
    have h31 : (2 : Int) ^ 31 = 2147483648 := by norm_num
    rw [h31]
    calc sumTerms (a.zip b) ≤ 195075 * ((a.zip b).length : Int) := hup
      _ ≤ 195075 * 11008 := mul_le_mul_of_nonneg_left hcast (by norm_num)
      _ < 2147483648 := by norm_num
  have hlow : -(2 ^ 31) ≤ sumTerms (a.zip b) := by
    have := sumTerms_nonneg (a.zip b)
    linarith
  rw [compare_thumbs_u8_eq_wrap _ _ hg, wrap32_of_range _ hlow hrange]
  exact ⟨rfl, sumTerms_nonneg _⟩

/-- Witness for C7's amended statement at a one-sample pair. -/
theorem c7_range_safe_bounded_witness :
    ([((0 : Nat), (0 : Nat), (0 : Nat))] : List RgbU8).length
        = ([((255 : Nat), (255 : Nat), (255 : Nat))] : List RgbU8).length ∧
    ([((0 : Nat), (0 : Nat), (0 : Nat))] : List RgbU8).length ≤ 11008 ∧
    (compare_thumbs_u8 [(0, 0, 0)] [(255, 255, 255)]
        = sumTerms (([(0, 0, 0)] : List RgbU8).zip [(255, 255, 255)]) ∧
      0 ≤ compare_thumbs_u8 [(0, 0, 0)] [(255, 255, 255)]) :=
  ⟨rfl, by decide,
    c7_range_safe_bounded [(0, 0, 0)] [(255, 255, 255)] rfl (by decide)
      (by decide) (by decide)⟩

/-- C7 counterexample: at sample resolution 105 (11025 samples, a length
the CLI's unbounded sampleres permits), the all-white versus all-black
equal-length pair drives the i32 accumulator past i32::MAX: the
release-mode wrapped result is negative, so the accumulator is not
range-safe and the metric is not non-negative. -/
theorem c7_counterexample_overflow_negative :
    ovfWhite.length = cexColors.length ∧ ovfWhite.length = 105 * 105 ∧
    compare_thumbs_u8 ovfWhite cexColors = -2144265421 ∧
    compare_thumbs_u8 ovfWhite cexColors < 0 := by
  have hlen1 : ovfWhite.length = 11025 := by
    unfold ovfWhite
    rw [List.length_replicate]
  have hlen2 : cexColors.length = 11025 := by
    unfold cexColors
    rw [List.length_replicate]
  have hg : usizeNot ovfWhite.length ≠ cexColors.length := by
    rw [hlen1, hlen2]
    decide
  have hd : sampleDiff (255, 255, 255) (0, 0, 0) = 195075 := by decide
  have hs : compare_thumbs_u8 ovfWhite cexColors
      = wrap32 (11025 * 195075) := by
    rw [compare_thumbs_u8_eq_wrap _ _ hg]
    unfold ovfWhite cexColors
    rw [sumTerms_zip_replicate, hd]
    norm_num
  have hw : wrap32 (11025 * 195075) = -2144265421 := by
    unfold wrap32
    norm_num
  refine ⟨by rw [hlen1, hlen2], by rw [hlen1], ?_, ?_⟩
  · rw [hs, hw]
  · rw [hs, hw]
    norm_num

end ImageGrid

